import Mathlib

/-!
Shallow embedding of the type-level constructs of the `typescript-mastery`
repository: the recursive conditional type `MyAwaited` (src/easy/06), the
generic record schemas `GroceryItem` / `GroceryStore` (src/easy/10), the
generic functions (src/easy/13), the default-parameter schemas `ApiRequest` /
`TSConfig` (src/unnamed/part_001), and the chart-config sketch (src/unnamed/part_000).

TypeScript types of the fragment these files exercise are embedded as the
inductive `Ty`: the primitives `string`/`number`/`boolean`, literal singleton
types, the `Promise` wrapper, single-parameter function types, and structural
object types (field lists). Every representable type has finite structure, so
the nesting of wrappers is finite by construction.
-/

namespace TSM

/-- Embedding of the TypeScript type fragment used by the exercises:
primitives, literal singleton types (unwidened), `Promise<T>`, one-parameter
function types `(x: P) => R`, and structural object types as field lists. -/
inductive Ty where
  | str : Ty
  | num : Ty
  | boolean : Ty
  | strLit : String → Ty
  | numLit : Rat → Ty
  | boolLit : Bool → Ty
  | promise : Ty → Ty
  | func : Ty → Ty → Ty
  | record : List (String × Ty) → Ty

/-- Property lookup on a field list: the first field with the given name,
as TypeScript property access resolves it. -/
def lookupField : List (String × Ty) → String → Option Ty
  | [], _ => none
  | (k, v) :: rest, s => if k = s then some v else lookupField rest s

/-- Indexed access `T["k"]`: defined on object types, absent elsewhere. -/
def fieldTy : Ty → String → Option Ty
  | .record fs, s => lookupField fs s
  | _, _ => none

/-- Whether a type is of the form `Promise<U>` (rule 1 of `MyAwaited`). -/
def Ty.isPromise : Ty → Bool
  | .promise _ => true
  | _ => false

/-- Rule 2 of `MyAwaited`: match the structural pattern
`T extends { then: (onfulfilled: (arg: infer U) => any) => any }` and return
the inferred `U` — the parameter type of the callback argument of `then`,
never the return type of `then` itself. -/
def thenMatch : Ty → Option Ty
  | .record fs =>
    match lookupField fs "then" with
    | some (.func (.func u _) _) => some u
    | _ => none
  | _ => none

/-- One unwrapping step of `MyAwaited`, in source order: first
`T extends Promise<infer U>`, else the thenable pattern, else no step. -/
def unwrapOnce : Ty → Option Ty
  | .promise u => some u
  | t => thenMatch t

/-- The exercise's recursive conditional type (src/easy/06, lines 19–20):
`type MyAwaited<T> = T extends Promise<infer U> ? MyAwaited<U>
 : T extends { then: (onfulfilled: (arg: infer U) => any) => any } ? MyAwaited<U> : T`.
Each unwrapping step strictly shrinks the type, which is the termination
argument discharged below. -/
def MyAwaited (t : Ty) : Ty :=
  match h : unwrapOnce t with
  | some u => MyAwaited u
  | none => t
termination_by sizeOf t
decreasing_by
  have hlk : ∀ (l : List (String × Ty)) (s : String) (v : Ty),
      lookupField l s = some v → sizeOf v < sizeOf l := by
    intro l
    induction l with
    | nil =>
      intro s v hv
      simp [lookupField] at hv
    | cons kv rest ih =>
      intro s v hv
      obtain ⟨k, w⟩ := kv
      by_cases hk : k = s
      · simp [lookupField, hk] at hv
        subst hv
        simp
        omega
      · simp [lookupField, hk] at hv
        have := ih s v hv
        simp
        omega
  cases t with
  | promise v =>
    simp [unwrapOnce] at h
    subst h
    simp
  | record fs =>
    simp only [unwrapOnce, thenMatch] at h
    cases hl : lookupField fs "then" with
    | none =>
      rw [hl] at h
      simp at h
    | some w =>
      rw [hl] at h
      cases w with
      | func p r =>
        cases p with
        | func a b =>
          simp at h
          subst h
          have := hlk fs "then" _ hl
          simp at this ⊢
          omega
        | _ => simp at h
      | _ => simp at h
  | _ => simp [unwrapOnce, thenMatch] at h

/-- Number of unwrapping layers `MyAwaited` traverses before its base case. -/
def layers (t : Ty) : Nat :=
  match h : unwrapOnce t with
  | some u => layers u + 1
  | none => 0
termination_by sizeOf t
decreasing_by
  have hlk : ∀ (l : List (String × Ty)) (s : String) (v : Ty),
      lookupField l s = some v → sizeOf v < sizeOf l := by
    intro l
    induction l with
    | nil =>
      intro s v hv
      simp [lookupField] at hv
    | cons kv rest ih =>
      intro s v hv
      obtain ⟨k, w⟩ := kv
      by_cases hk : k = s
      · simp [lookupField, hk] at hv
        subst hv
        simp
        omega
      · simp [lookupField, hk] at hv
        have := ih s v hv
        simp
        omega
  cases t with
  | promise v =>
    simp [unwrapOnce] at h
    subst h
    simp
  | record fs =>
    simp only [unwrapOnce, thenMatch] at h
    cases hl : lookupField fs "then" with
    | none =>
      rw [hl] at h
      simp at h
    | some w =>
      rw [hl] at h
      cases w with
      | func p r =>
        cases p with
        | func a b =>
          simp at h
          subst h
          have := hlk fs "then" _ hl
          simp at this ⊢
          omega
        | _ => simp at h
      | _ => simp at h
  | _ => simp [unwrapOnce, thenMatch] at h

/-- Iterate the single unwrapping step a fixed number of times. -/
def iterUnwrap : Nat → Ty → Ty
  | 0, t => t
  | n + 1, t =>
    match unwrapOnce t with
    | some u => iterUnwrap n u
    | none => t

/-- src/easy/10: `type GroceryItem<Name, Price, InStock> =
{ name: Name, price: Price, inStock: InStock }` — three independent,
unconstrained, defaultless type parameters. -/
def GroceryItem (Name Price InStock : Ty) : Ty :=
  .record [("name", Name), ("price", Price), ("inStock", InStock)]

/-- src/easy/10: `type GroceryStore<Name, City> = { name: Name; city: City }`. -/
def GroceryStore (Name City : Ty) : Ty :=
  .record [("name", Name), ("city", City)]

/-- src/easy/10: `type CapreseSalad = GroceryItem<'Caprese Salad', 14.99, true>`,
instantiated with literal singleton types. -/
def CapreseSalad : Ty :=
  GroceryItem (.strLit "Caprese Salad") (.numLit 14.99) (.boolLit true)

/-- src/easy/13: `const mapArray = <T, U> (arr: Array<T>, fn :(param: T) => U )
=> arr.map(fn)`. `Array.prototype.map` builds a fresh array by applying `fn`
to each element in order; the embedding is a pure function of the input list,
so the input sequence is never mutated. -/
def mapArray {T U : Type} (arr : List T) (fn : T → U) : List U :=
  arr.map fn

/-- src/unnamed/part_001: `type ApiRequest<Data, Method = 'GET'> =
{ data: Data; method: Method }`, the two-argument form. -/
def ApiRequest (Data Method : Ty) : Ty :=
  .record [("data", Data), ("method", Method)]

/-- `ApiRequest<Data>` with only one type argument: the omitted `Method`
is replaced by its declared default, the literal type `'GET'`. -/
def ApiRequestDefault (Data : Ty) : Ty :=
  ApiRequest Data (.strLit "GET")

/-- The declared default `{ strict: true }` of `TSConfig`'s parameter. -/
def TSConfigDefaultParam : Ty :=
  .record [("strict", .boolLit true)]

/-- src/unnamed/part_001: `type TSConfig<Param extends { strict: boolean} =
{ strict: true}> = { strict: Param['strict'] }`. The body is the indexed
access `Param['strict']`, not a copy of the default record; the access is
absent (`none`) when `Param` has no `strict` member. -/
def TSConfig (Param : Ty) : Option Ty :=
  (fieldTy Param "strict").map (fun s => .record [("strict", s)])

/-- `TSConfig` instantiated with no type argument: `Param` defaults to
`{ strict: true }`. -/
def TSConfigNoArg : Option Ty :=
  TSConfig TSConfigDefaultParam

/-- The constraint `{ strict: boolean }` on `TSConfig`'s parameter. -/
def tsconfigConstraint : Ty :=
  .record [("strict", .boolean)]

mutual

/-- Structural assignability (`S extends T`) for the embedded fragment, the
relation the checker uses to accept or reject a generic instantiation against
its constraint: literal singleton types are assignable to their primitive,
`Promise` is covariant, function types are contravariant in the parameter and
covariant in the result, and object types use width-and-depth subtyping. -/
def subTy : Ty → Ty → Bool
  | .str, .str => true
  | .num, .num => true
  | .boolean, .boolean => true
  | .strLit a, .strLit b => a == b
  | .numLit a, .numLit b => decide (a = b)
  | .boolLit a, .boolLit b => a == b
  | .strLit _, .str => true
  | .numLit _, .num => true
  | .boolLit _, .boolean => true
  | .promise a, .promise b => subTy a b
  | .func p r, .func q s => subTy q p && subTy r s
  | .record fs, .record gs => subFields fs gs
  | _, _ => false
termination_by s t => sizeOf s + sizeOf t
decreasing_by
  all_goals simp
  all_goals omega

/-- Every required field of the supertype is present in `fs` with an
assignable type (width and depth subtyping of object types). -/
def subFields (fs : List (String × Ty)) : List (String × Ty) → Bool
  | [] => true
  | (k, v) :: rest => fieldSub fs k v && subFields fs rest
termination_by gs => sizeOf fs + sizeOf gs
decreasing_by
  all_goals simp
  all_goals omega

/-- Scan the field list for name `k` and check assignability of its type
to `v`. -/
def fieldSub : List (String × Ty) → String → Ty → Bool
  | [], _, _ => false
  | (k2, w) :: rest2, k, v => if k2 = k then subTy w v else fieldSub rest2 k v
termination_by l _ v => sizeOf l + sizeOf v
decreasing_by
  all_goals simp
  all_goals omega

end

/-- Declaration forms of src/unnamed/part_000: `const` versus `let`/`var`. -/
inductive BindingKind where
  | constDecl : BindingKind
  | letDecl : BindingKind

/-- TypeScript widening at declaration sites: `typeof x` for a numeric-literal
initializer is the unwidened literal type under `const`, and the widened
`number` under `let`/`var`. -/
def declaredNumType : BindingKind → Rat → Ty
  | .constDecl, n => .numLit n
  | .letDecl, _ => .num

/-- src/unnamed/part_000 line 4: `const width = 800`. -/
def width : Rat := 800

/-- src/unnamed/part_000 line 7: `type Width = typeof width`, where `width`
is a `const` declaration. -/
def Width : Ty := declaredNumType .constDecl width

theorem lookupField_sizeOf_lt {fs : List (String × Ty)} {s : String} {v : Ty}
    (h : lookupField fs s = some v) : sizeOf v < sizeOf fs := by
  induction fs with
  | nil => simp [lookupField] at h
  | cons kv rest ih =>
    obtain ⟨k, w⟩ := kv
    by_cases hk : k = s
    · simp [lookupField, hk] at h
      subst h
      simp
      omega
    · simp [lookupField, hk] at h
      have := ih h
      simp
      omega

theorem thenMatch_sizeOf_lt {t u : Ty} (h : thenMatch t = some u) :
    sizeOf u < sizeOf t := by
  cases t with
  | record fs =>
    simp only [thenMatch] at h
    cases hl : lookupField fs "then" with
    | none => rw [hl] at h; simp at h
    | some w =>
      rw [hl] at h
      cases w with
      | func p r =>
        cases p with
        | func a b =>
          simp at h
          subst h
          have := lookupField_sizeOf_lt hl
          simp at this ⊢
          omega
        | _ => simp at h
      | _ => simp at h
  | _ => simp [thenMatch] at h

theorem unwrapOnce_sizeOf_lt {t u : Ty} (h : unwrapOnce t = some u) :
    sizeOf u < sizeOf t := by
  cases t with
  | promise v =>
    simp [unwrapOnce] at h
    subst h
    simp
  | _ => exact thenMatch_sizeOf_lt h

theorem myAwaited_step {t u : Ty} (h : unwrapOnce t = some u) :
    MyAwaited t = MyAwaited u := by
  rw [MyAwaited]
  split
  · rename_i v hv
    rw [h] at hv
    exact (Option.some.injEq u v).mp hv ▸ rfl
  · rename_i hv
    rw [h] at hv
    exact absurd hv (by simp)

theorem myAwaited_base {t : Ty} (h : unwrapOnce t = none) :
    MyAwaited t = t := by
  rw [MyAwaited]
  split
  · rename_i v hv
    rw [h] at hv
    exact absurd hv (by simp)
  · rfl

theorem layers_step {t u : Ty} (h : unwrapOnce t = some u) :
    layers t = layers u + 1 := by
  rw [layers]
  split
  · rename_i v hv
    rw [h] at hv
    exact (Option.some.injEq u v).mp hv ▸ rfl
  · rename_i hv
    rw [h] at hv
    exact absurd hv (by simp)

theorem layers_base {t : Ty} (h : unwrapOnce t = none) :
    layers t = 0 := by
  rw [layers]
  split
  · rename_i v hv
    rw [h] at hv
    exact absurd hv (by simp)
  · rfl

theorem unwrapOnce_of_not_promise {t : Ty} (h : t.isPromise = false) :
    unwrapOnce t = thenMatch t := by
  cases t <;> first
    | rfl
    | simp [Ty.isPromise] at h

/-- A fully evaluated `MyAwaited` result matches neither unwrapping rule. -/
theorem unwrapOnce_myAwaited (t : Ty) : unwrapOnce (MyAwaited t) = none := by
  cases h : unwrapOnce t with
  | some u =>
    rw [myAwaited_step h]
    exact unwrapOnce_myAwaited u
  | none =>
    rw [myAwaited_base h]
    exact h
termination_by sizeOf t
decreasing_by exact unwrapOnce_sizeOf_lt h

/-- C1: `MyAwaited` follows the three-rule conditional recursion of the
source: `MyAwaited<Promise<U>> = MyAwaited<U>`; when the thenable pattern
matches with inferred callback-argument type `U`, `MyAwaited<T> = MyAwaited<U>`;
and on any plain type (neither a `Promise` nor a matching thenable) it is the
identity, so in particular a doubly nested `Promise` of a plain type fully
unwraps to that plain type. -/
theorem myAwaited_rules :
    (∀ u : Ty, MyAwaited (.promise u) = MyAwaited u) ∧
    (∀ t u : Ty, thenMatch t = some u → MyAwaited t = MyAwaited u) ∧
    (∀ t : Ty, t.isPromise = false → thenMatch t = none → MyAwaited t = t) ∧
    (∀ t : Ty, t.isPromise = false → thenMatch t = none →
      MyAwaited (.promise (.promise t)) = t) := by
  have hplain : ∀ t : Ty, t.isPromise = false → thenMatch t = none →
      MyAwaited t = t := by
    intro t h1 h2
    apply myAwaited_base
    rw [unwrapOnce_of_not_promise h1]
    exact h2
  refine ⟨?_, ?_, hplain, ?_⟩
  · intro u
    exact myAwaited_step rfl
  · intro t u h
    apply myAwaited_step
    cases t <;> simp_all [unwrapOnce, thenMatch]
  · intro t h1 h2
    rw [myAwaited_step (t := Ty.promise (.promise t)) rfl,
      myAwaited_step (t := Ty.promise t) rfl]
    exact hplain t h1 h2

/-- Witness for C1 at the plain type `string` under two `Promise` layers. -/
theorem myAwaited_rules_witness :
    Ty.isPromise .str = false ∧ thenMatch .str = none ∧
    MyAwaited (.promise (.promise .str)) = .str :=
  ⟨rfl, rfl, myAwaited_rules.2.2.2 .str rfl rfl⟩

/-- C2: in the thenable branch, the unwrapped type is the parameter type of
the callback passed to `then`: whenever the `then` member is a function whose
callback takes a `string` argument, `MyAwaited` yields `string`, whatever
`then` itself returns (`w` and `r` are unconstrained). -/
theorem myAwaited_thenable_from_param :
    ∀ (fs : List (String × Ty)) (w r : Ty),
      lookupField fs "then" = some (.func (.func .str w) r) →
      MyAwaited (.record fs) = .str := by
  intro fs w r h
  have hu : unwrapOnce (.record fs) = some .str := by
    simp [unwrapOnce, thenMatch, h]
  rw [myAwaited_step hu]
  exact myAwaited_base rfl

/-- Witness for C2: the `then` member returns `boolean`, yet the result is
`string`, taken from the callback parameter. -/
theorem myAwaited_thenable_from_param_witness :
    lookupField [("then", Ty.func (.func .str .num) .boolean)] "then"
      = some (.func (.func .str .num) .boolean) ∧
    MyAwaited (.record [("then", Ty.func (.func .str .num) .boolean)]) = .str :=
  ⟨rfl, myAwaited_thenable_from_param _ _ _ rfl⟩

/-- C3: on every embedded type (wrapper nesting is finite by construction of
`Ty`), the recursion of `MyAwaited` reaches its base case after finitely many
unwrapping steps — exactly `layers t` of them, one per wrapper layer — and the
iterated single-step unwrapping computes `MyAwaited`. -/
theorem myAwaited_terminates (t : Ty) :
    unwrapOnce (iterUnwrap (layers t) t) = none ∧
    iterUnwrap (layers t) t = MyAwaited t ∧
    (∀ u : Ty, unwrapOnce t = some u → layers t = layers u + 1) := by
  cases h : unwrapOnce t with
  | some u =>
    have ih := myAwaited_terminates u
    have hl : layers t = layers u + 1 := layers_step h
    have hi : iterUnwrap (layers t) t = iterUnwrap (layers u) u := by
      rw [hl]
      simp [iterUnwrap, h]
    refine ⟨?_, ?_, ?_⟩
    · rw [hi]
      exact ih.1
    · rw [hi, myAwaited_step h]
      exact ih.2.1
    · intro v hv
      injection hv with hv2
      subst hv2
      exact hl
  | none =>
    have hl : layers t = 0 := layers_base h
    refine ⟨?_, ?_, ?_⟩
    · rw [hl]
      simpa [iterUnwrap] using h
    · rw [hl, iterUnwrap, myAwaited_base h]
    · intro v hv
      exact Option.noConfusion hv
termination_by sizeOf t
decreasing_by exact unwrapOnce_sizeOf_lt h

/-- Witness for C3: one `Promise` layer over `string` costs one step. -/
theorem myAwaited_terminates_witness :
    unwrapOnce (Ty.promise .str) = some .str ∧
    layers (Ty.promise .str) = layers .str + 1 :=
  ⟨rfl, (myAwaited_terminates (Ty.promise .str)).2.2 .str rfl⟩

/-- C9: `MyAwaited` is idempotent — its result matches neither rule again,
so a second application is the identity. -/
theorem myAwaited_idempotent (t : Ty) :
    MyAwaited (MyAwaited t) = MyAwaited t :=
  myAwaited_base (unwrapOnce_myAwaited t)

/-- Witness for C9 at a concrete wrapped type. -/
theorem myAwaited_idempotent_witness :
    MyAwaited (MyAwaited (Ty.promise .num)) = MyAwaited (Ty.promise .num) :=
  myAwaited_idempotent (Ty.promise .num)

/-- C4: `mapArray` preserves length, and the element at every index `i` of
the output is the transform applied to the input element at `i` (order
preserved). The embedding is a pure function, so the input sequence is
unchanged by the call. -/
theorem mapArray_spec {T U : Type} (xs : List T) (f : T → U) :
    (mapArray xs f).length = xs.length ∧
    (∀ i : Nat, i < xs.length → (mapArray xs f)[i]? = (xs[i]?).map f) := by
  constructor
  · simp [mapArray]
  · intro i hi
    simp [mapArray]

/-- Witness for C4 at a concrete list, transform, and index. -/
theorem mapArray_spec_witness :
    1 < ([10, 20, 30] : List Nat).length ∧
    (mapArray ([10, 20, 30] : List Nat) (fun n => n + 1))[1]? =
      (([10, 20, 30] : List Nat)[1]?).map (fun n => n + 1) :=
  ⟨by decide, (mapArray_spec [10, 20, 30] (fun n => n + 1)).2 1 (by decide)⟩

/-- C5: `GroceryItem` and `GroceryStore` accept any type for each parameter
independently (the embedding quantifies over all of `Ty`, literal singletons
included — no constraint, no default) and each field carries exactly the
supplied type; `CapreseSalad`'s fields are exactly the singleton literal
types, which are distinct from the widened primitives. -/
theorem groceryItem_literal_fields :
    (∀ Name Price InStock : Ty,
      fieldTy (GroceryItem Name Price InStock) "name" = some Name ∧
      fieldTy (GroceryItem Name Price InStock) "price" = some Price ∧
      fieldTy (GroceryItem Name Price InStock) "inStock" = some InStock) ∧
    (∀ Name City : Ty,
      fieldTy (GroceryStore Name City) "name" = some Name ∧
      fieldTy (GroceryStore Name City) "city" = some City) ∧
    fieldTy CapreseSalad "name" = some (.strLit "Caprese Salad") ∧
    fieldTy CapreseSalad "price" = some (.numLit 14.99) ∧
    fieldTy CapreseSalad "inStock" = some (.boolLit true) ∧
    Ty.strLit "Caprese Salad" ≠ Ty.str ∧
    Ty.numLit 14.99 ≠ Ty.num ∧
    Ty.boolLit true ≠ Ty.boolean := by
  refine ⟨fun N P S => ⟨rfl, rfl, rfl⟩, fun N C => ⟨rfl, rfl⟩,
    rfl, rfl, rfl, ?_, ?_, ?_⟩
  all_goals intro h
  all_goals exact Ty.noConfusion h

/-- Witness for C5: parameters instantiated with arbitrary, independent
types (a numeric literal as the name, a string literal as the price). -/
theorem groceryItem_literal_fields_witness :
    fieldTy (GroceryItem (.numLit 1) (.strLit "x") .num) "price" =
      some (.strLit "x") :=
  (groceryItem_literal_fields.1 (.numLit 1) (.strLit "x") .num).2.1

/-- C6: `TSConfig`'s `strict` field is the indexed access `Param['strict']`:
with no argument it is the singleton `true` (from the default parameter),
with `{strict: false}` it is the singleton `false`, and a parameter with a
supplementary field still satisfies the constraint and resolves to `false`. -/
theorem tsconfig_strict_lookup :
    (∀ Param u : Ty, fieldTy Param "strict" = some u →
      TSConfig Param = some (.record [("strict", u)])) ∧
    TSConfigNoArg = some (.record [("strict", .boolLit true)]) ∧
    TSConfig (.record [("strict", .boolLit false)]) =
      some (.record [("strict", .boolLit false)]) ∧
    subTy (.record [("strict", .boolLit false), ("extra", .numLit 1)])
      tsconfigConstraint = true ∧
    TSConfig (.record [("strict", .boolLit false), ("extra", .numLit 1)]) =
      some (.record [("strict", .boolLit false)]) := by
  refine ⟨?_, rfl, rfl, ?_, rfl⟩
  · intro Param u h
    simp [TSConfig, h]
  · simp [subTy, subFields, fieldSub, tsconfigConstraint]

/-- Witness for C6: the lookup at a parameter whose `strict` field is the
full `boolean` type. -/
theorem tsconfig_strict_lookup_witness :
    fieldTy (Ty.record [("strict", Ty.boolean)]) "strict" = some Ty.boolean ∧
    TSConfig (Ty.record [("strict", Ty.boolean)]) =
      some (.record [("strict", Ty.boolean)]) :=
  ⟨rfl, tsconfig_strict_lookup.1 _ _ rfl⟩

/-- C7: `ApiRequest` instantiated with one argument has `method` exactly the
singleton `'GET'` (the default), and with two arguments the second argument
overrides the default while `data` carries the first. -/
theorem apiRequest_method_default :
    (∀ Data : Ty,
      fieldTy (ApiRequestDefault Data) "method" = some (.strLit "GET") ∧
      fieldTy (ApiRequestDefault Data) "data" = some Data) ∧
    (∀ Data Method : Ty,
      fieldTy (ApiRequest Data Method) "method" = some Method ∧
      fieldTy (ApiRequest Data Method) "data" = some Data) :=
  ⟨fun _ => ⟨rfl, rfl⟩, fun _ _ => ⟨rfl, rfl⟩⟩

/-- Witness for C7 at concrete type arguments. -/
theorem apiRequest_method_default_witness :
    fieldTy (ApiRequestDefault Ty.num) "method" = some (Ty.strLit "GET") ∧
    fieldTy (ApiRequest Ty.num (Ty.strLit "POST")) "method" =
      some (Ty.strLit "POST") :=
  ⟨(apiRequest_method_default.1 Ty.num).1,
    (apiRequest_method_default.2 Ty.num (Ty.strLit "POST")).1⟩

theorem fieldSub_iff (l : List (String × Ty)) (k : String) (v : Ty) :
    fieldSub l k v = true ↔
      ∃ w : Ty, lookupField l k = some w ∧ subTy w v = true := by
  induction l with
  | nil => simp [fieldSub, lookupField]
  | cons kv rest ih =>
    obtain ⟨k2, w⟩ := kv
    by_cases hk : k2 = k
    · simp [fieldSub, lookupField, hk]
    · simp [fieldSub, lookupField, hk, ih]

/-- C8: the checker's constraint check for instantiating `TSConfig<Param>` —
assignability of `Param` to `{ strict: boolean }` — succeeds exactly when
`Param` has a `strict` member whose type is assignable to `boolean`; every
`Param` without such a member is rejected statically, every `Param` with one
is accepted. -/
theorem tsconfig_constraint_check (p : Ty) :
    subTy p tsconfigConstraint = true ↔
      ∃ t : Ty, fieldTy p "strict" = some t ∧ subTy t .boolean = true := by
  cases p with
  | record fs =>
    have h1 : subTy (.record fs) tsconfigConstraint =
        fieldSub fs "strict" .boolean := by
      simp [subTy, subFields, tsconfigConstraint]
    rw [h1, fieldSub_iff]
    simp [fieldTy]
  | _ =>
    rw [subTy.eq_def]
    simp [tsconfigConstraint, fieldTy]

/-- Witness for C8: a parameter without a `strict` member is rejected, one
with a boolean `strict` member (plus an extra field) is accepted. -/
theorem tsconfig_constraint_check_witness :
    subTy (.record [("data", Ty.num)]) tsconfigConstraint = false ∧
    subTy (.record [("strict", Ty.boolLit false), ("extra", Ty.numLit 1)])
      tsconfigConstraint = true := by
  constructor
  · have h := tsconfig_constraint_check (.record [("data", Ty.num)])
    simp [fieldTy, lookupField] at h
    exact h
  · exact (tsconfig_constraint_check _).mpr ⟨.boolLit false, rfl, by simp [subTy]⟩

/-- C10: `Width` is the unwidened singleton literal type `800`, not the
general `number` type, because `width` is a `const` declaration; under a
`let` declaration the same initializer would widen to `number`. -/
theorem width_literal_not_widened :
    Width = Ty.numLit 800 ∧ Width ≠ Ty.num ∧
    declaredNumType .letDecl width = Ty.num := by
  refine ⟨rfl, ?_, rfl⟩
  intro h
  rw [show Width = Ty.numLit 800 from rfl] at h
  exact Ty.noConfusion h

/-- Witness for C10. -/
theorem width_literal_not_widened_witness : Width = Ty.numLit 800 :=
  width_literal_not_widened.1

end TSM
